import Mathlib

/-!
Shallow embedding of `crypto_pass2key` from `src/lib/libspl/crypto.c`
(gnif/zfs-crypto).

The routine derives a fixed-length key from a password (`keydata`) and a
`salt` by configuring an AES encryption key from the (truncated /
zero-padded) password and then repeatedly CBC-encrypting a work buffer in
place, threading the 16-byte IV (initially all zero) from call to call.

Bytes are modelled as `Nat` (values < 256 in practice; the embedding never
depends on the bound).  The AES primitive itself (`aes_setkey_enc`,
`aes_crypt_cbc` from `aes.h`) is not part of the repository fragment, so it
is treated as an external capability: `aes_crypt_cbc` becomes an abstract
oracle parameter and `aes_setkey_enc` is modelled from the spec.
-/

/-- Little-endian 4-byte memory image of a 32-bit value, as laid down by
`memcpy(&buffer[saltlen], &iterations, sizeof(iterations))` on the
little-endian targets this code runs on ("native representation"). -/
def natBytes4 (n : Nat) : List Nat :=
  [n % 256, n / 256 % 256, n / 65536 % 256, n / 16777216 % 256]

/-- `uint32_t iterations = 1000;` — fixed by the legacy Solaris scheme
(`// As specified by Solaris`). -/
def ITERATIONS : Nat := 1000

/-- `memcpy(&dst[off], src, src.length)` on a buffer modelled as a list:
the destination keeps its prefix before `off`, receives `src`, and keeps
its suffix after the copied region.  Writes that would land beyond the end
of `dst` are dropped (the in-bounds projection of the C write; the
out-of-bounds analysis is done separately on the written index set). -/
def memcpyAt (dst : List Nat) (off : Nat) (src : List Nat) : List Nat :=
  dst.take off ++ src.take (dst.length - off) ++ dst.drop (off + src.length)

/-- Number of password bytes copied into the 32-byte `statickey` buffer:
`memcpy(statickey, keydata, keydatalen < desired_keylen ? keydatalen :
desired_keylen)`. -/
def seedCopyLen (keydata : List Nat) (desired_keylen : Nat) : Nat :=
  min keydata.length desired_keylen

/-- Contents of the 32-byte `statickey` buffer after
`memset(statickey, 0, 32)` and the password `memcpy` (in-bounds part). -/
def statickey (keydata : List Nat) (desired_keylen : Nat) : List Nat :=
  memcpyAt (List.replicate 32 0) 0 (keydata.take (seedCopyLen keydata desired_keylen))

/-- The seed key actually consumed by `aes_setkey_enc(&aes, statickey,
desired_keylen * 8)`: the first `desired_keylen` bytes of `statickey`. -/
def seedKey (keydata : List Nat) (desired_keylen : Nat) : List Nat :=
  (statickey keydata desired_keylen).take desired_keylen

/-- Modelled from the spec: `aes_setkey_enc` (the Block Cipher Primitive's
"configure an encryption key of N*8 bits" capability, from `aes.h`, not
part of this fragment) accepts exactly the 128/192/256-bit key sizes of
the legacy scheme and rejects any other size with a nonzero status. -/
def aes_setkey_enc_status (keybits : Nat) : Int :=
  if keybits = 128 ∨ keybits = 192 ∨ keybits = 256 then 0 else 1

/-- Initial work buffer: `calloc(1, desired_keylen)`, then
`memcpy(buffer, salt, saltlen)`, then the 4-byte iteration constant
immediately after the salt. -/
def workInit (salt : List Nat) (desired_keylen : Nat) : List Nat :=
  memcpyAt (memcpyAt (List.replicate desired_keylen 0) 0 salt)
    salt.length (natBytes4 ITERATIONS)

/-- Result of one `aes_crypt_cbc(&aes, AES_ENCRYPT, len, iv, buffer,
buffer)` call: a status, the updated in-place IV (chaining state) and the
output buffer. -/
structure CbcResult where
  status : Int
  iv : List Nat
  out : List Nat

/-- The external CBC-encryption capability: given the configured key, the
index of the call in the derivation (so that call-dependent failure can be
modelled, e.g. "the cipher call at iteration 500 fails"), the current
chaining state and the input buffer, produce a `CbcResult`. -/
def CbcOracle : Type :=
  List Nat → Nat → List Nat → List Nat → CbcResult

/-- An always-succeeding primitive: every call returns status 0. -/
def Functioning (oracle : CbcOracle) : Prop :=
  ∀ key n iv buf, (oracle key n iv buf).status = 0

/-- State when the `for` loop of `crypto_pass2key` exits: the last
`ret`, the loop counter `i`, the chaining state, the work buffer, and the
total number of `aes_crypt_cbc` calls performed (the init-expression call
included). -/
structure LoopOut where
  ret : Int
  i : Nat
  iv : List Nat
  buf : List Nat
  calls : Nat

/-- The loop `for(...; !ret && (i < iterations); i++) { ret =
aes_crypt_cbc(...); }` after its init expression has run: at each entry the
condition `!ret && (i < iterations)` is tested; while it holds, one more
cipher call is made and `i` is incremented.  `fuel` is a structural bound;
every use supplies `fuel = iterations - i`, so the fuel never runs out
before the condition fails. -/
def cryptLoopGo (oracle : CbcOracle) (key : List Nat) (iterations : Nat) :
    Nat → Int → Nat → List Nat → List Nat → Nat → LoopOut
  | 0, ret, i, iv, buf, calls => ⟨ret, i, iv, buf, calls⟩
  | fuel + 1, ret, i, iv, buf, calls =>
    if ret ≠ 0 ∨ iterations ≤ i then ⟨ret, i, iv, buf, calls⟩
    else
      cryptLoopGo oracle key iterations fuel
        (oracle key calls iv buf).status (i + 1)
        (oracle key calls iv buf).iv (oracle key calls iv buf).out (calls + 1)

/-- The whole encryption phase: `unsigned char iv[16] = { 0 };`, the
init-expression call `(ret = aes_crypt_cbc(...)), i = 0`, then the loop. -/
def p2kRun (oracle : CbcOracle) (seed : List Nat) (salt : List Nat)
    (desired_keylen : Nat) : LoopOut :=
  cryptLoopGo oracle seed ITERATIONS ITERATIONS
    (oracle seed 0 (List.replicate 16 0) (workInit salt desired_keylen)).status 0
    (oracle seed 0 (List.replicate 16 0) (workInit salt desired_keylen)).iv
    (oracle seed 0 (List.replicate 16 0) (workInit salt desired_keylen)).out 1

/-- Observable outcome of one `crypto_pass2key` call.  `out_keydata` /
`out_keylen` are `none` when the corresponding caller-supplied location is
left untouched (or was a null pointer).  `bufferFreed` records whether the
work buffer was freed inside the routine (`if (buffer) free(buffer);` at
`out:`) rather than transferred to the caller.  `seedBytesWritten` is the
number of bytes the unconditional password `memcpy` wrote into the 32-byte
`statickey` buffer, and `cryptCalls` the number of `aes_crypt_cbc`
invocations performed. -/
structure P2KResult where
  ret : Int
  out_keydata : Option (List Nat)
  out_keylen : Option Nat
  bufferFreed : Bool
  seedBytesWritten : Nat
  cryptCalls : Nat

/-- `crypto_pass2key` after the seed key has been built: key setup, buffer
assembly, the chained encryption loop, the `if (i < iterations) goto out;`
failure check, and the output stores guarded by the nullness of
`out_keydata` / `out_keylen` (modelled by `wantData` / `wantLen`). -/
def p2kFromSeed (oracle : CbcOracle) (seed : List Nat) (copyLen : Nat)
    (salt : List Nat) (desired_keylen : Nat) (wantData wantLen : Bool) : P2KResult :=
  if aes_setkey_enc_status (desired_keylen * 8) ≠ 0 then
    ⟨-1, none, none, false, copyLen, 0⟩
  else if (p2kRun oracle seed salt desired_keylen).i < ITERATIONS then
    ⟨(p2kRun oracle seed salt desired_keylen).ret, none, none, true, copyLen,
      (p2kRun oracle seed salt desired_keylen).calls⟩
  else
    ⟨0,
      if wantData then some (p2kRun oracle seed salt desired_keylen).buf else none,
      if wantLen then some desired_keylen else none,
      !wantData, copyLen,
      (p2kRun oracle seed salt desired_keylen).calls⟩

/-- `int crypto_pass2key(unsigned char *keydata, size_t keydatalen, void
*salt, size_t saltlen, size_t desired_keylen, void **out_keydata, size_t
*out_keylen)`, with `keydatalen = keydata.length`, `saltlen =
salt.length`, and `wantData` / `wantLen` the nullness of the two output
pointers.  Allocation of the work buffer is assumed to succeed. -/
def crypto_pass2key (oracle : CbcOracle) (keydata salt : List Nat)
    (desired_keylen : Nat) (wantData wantLen : Bool) : P2KResult :=
  p2kFromSeed oracle (seedKey keydata desired_keylen)
    (seedCopyLen keydata desired_keylen) salt desired_keylen wantData wantLen

/-- Indices of the work buffer written by the two assembly `memcpy`s:
`memcpy(buffer, salt, saltlen)` touches `0 .. saltlen-1` and
`memcpy(&buffer[saltlen], &iterations, 4)` touches `saltlen .. saltlen+3`,
with no bounds check against the `desired_keylen`-byte allocation. -/
def workWriteIdxs (saltlen : Nat) : List Nat :=
  List.range saltlen ++ (List.range 4).map (fun j => saltlen + j)

/-- A cipher that always succeeds and leaves IV and buffer unchanged;
used to exercise the control flow on concrete inputs. -/
def idOracle : CbcOracle :=
  fun _ _ iv buf => ⟨0, iv, buf⟩

/-- A cipher that succeeds on every call except the one with index `m`,
which fails with status 1 (IV and buffer left unchanged, as a failing
`aes_crypt_cbc` leaves its output unwritten). -/
def failAt (m : Nat) : CbcOracle :=
  fun _ n iv buf => ⟨if n = m then 1 else 0, iv, buf⟩

theorem idOracle_functioning : Functioning idOracle :=
  fun _ _ _ _ => rfl

example : natBytes4 1000 = [232, 3, 0, 0] := by decide

example : workInit [5, 6, 7, 8] 16
    = [5, 6, 7, 8, 232, 3, 0, 0, 0, 0, 0, 0, 0, 0, 0, 0] := by decide

theorem aes_setkey_enc_status_eq_zero_iff (keybits : Nat) :
    aes_setkey_enc_status keybits = 0
      ↔ (keybits = 128 ∨ keybits = 192 ∨ keybits = 256) := by
  unfold aes_setkey_enc_status
  split <;> simp_all

theorem cryptLoopGo_ret_zero (oracle : CbcOracle) (key : List Nat) (iters : Nat)
    (h : Functioning oracle) (fuel : Nat) :
    ∀ i iv buf calls, (cryptLoopGo oracle key iters fuel 0 i iv buf calls).ret = 0 := by
  induction fuel with
  | zero => intro i iv buf calls; rfl
  | succ fuel ih =>
    intro i iv buf calls
    rw [cryptLoopGo]
    split
    · rfl
    · rw [h key calls iv buf]
      exact ih (i + 1) (oracle key calls iv buf).iv (oracle key calls iv buf).out (calls + 1)

theorem cryptLoopGo_i_ge (oracle : CbcOracle) (key : List Nat) (iters : Nat)
    (h : Functioning oracle) (fuel : Nat) :
    ∀ i iv buf calls, iters ≤ i + fuel →
      iters ≤ (cryptLoopGo oracle key iters fuel 0 i iv buf calls).i := by
  induction fuel with
  | zero => intro i iv buf calls hle; simpa [cryptLoopGo] using hle
  | succ fuel ih =>
    intro i iv buf calls hle
    rw [cryptLoopGo]
    split
    · next hc =>
      rcases hc with hc | hc
      · exact absurd rfl hc
      · exact hc
    · rw [h key calls iv buf]
      exact ih (i + 1) (oracle key calls iv buf).iv (oracle key calls iv buf).out
        (calls + 1) (by omega)

theorem cryptLoopGo_calls_count (oracle : CbcOracle) (key : List Nat) (iters : Nat)
    (h : Functioning oracle) (fuel : Nat) :
    ∀ i iv buf calls, i + fuel ≤ iters →
      (cryptLoopGo oracle key iters fuel 0 i iv buf calls).calls = calls + fuel := by
  induction fuel with
  | zero => intro i iv buf calls _; rfl
  | succ fuel ih =>
    intro i iv buf calls hle
    rw [cryptLoopGo]
    split
    · next hc =>
      rcases hc with hc | hc
      · exact absurd rfl hc
      · omega
    · rw [h key calls iv buf]
      rw [ih (i + 1) (oracle key calls iv buf).iv (oracle key calls iv buf).out
        (calls + 1) (by omega)]
      omega

theorem cryptLoopGo_fail_exit (oracle : CbcOracle) (key : List Nat) (iters : Nat)
    (fuel : Nat) :
    ∀ (ret : Int) i iv buf calls, i + fuel = iters →
      (cryptLoopGo oracle key iters fuel ret i iv buf calls).i < iters →
      (cryptLoopGo oracle key iters fuel ret i iv buf calls).ret ≠ 0 := by
  induction fuel with
  | zero =>
    intro ret i iv buf calls heq hlt
    simp only [cryptLoopGo] at hlt
    omega
  | succ fuel ih =>
    intro ret i iv buf calls heq
    rw [cryptLoopGo]
    split
    · next hc =>
      intro hlt
      rcases hc with hc | hc
      · exact hc
      · simp only at hlt; omega
    · exact ih _ (i + 1) _ _ (calls + 1) (by omega)

theorem p2kRun_ret_zero (oracle : CbcOracle) (seed salt : List Nat)
    (desired_keylen : Nat) (h : Functioning oracle) :
    (p2kRun oracle seed salt desired_keylen).ret = 0 := by
  rw [p2kRun, h seed 0 (List.replicate 16 0) (workInit salt desired_keylen)]
  exact cryptLoopGo_ret_zero oracle seed ITERATIONS h ITERATIONS 0 _ _ 1

theorem p2kRun_i_ge (oracle : CbcOracle) (seed salt : List Nat)
    (desired_keylen : Nat) (h : Functioning oracle) :
    ITERATIONS ≤ (p2kRun oracle seed salt desired_keylen).i := by
  rw [p2kRun, h seed 0 (List.replicate 16 0) (workInit salt desired_keylen)]
  exact cryptLoopGo_i_ge oracle seed ITERATIONS h ITERATIONS 0 _ _ 1 (by omega)

theorem p2kRun_fail (oracle : CbcOracle) (seed salt : List Nat)
    (desired_keylen : Nat) :
    (p2kRun oracle seed salt desired_keylen).i < ITERATIONS →
    (p2kRun oracle seed salt desired_keylen).ret ≠ 0 := by
  rw [p2kRun]
  exact cryptLoopGo_fail_exit oracle seed ITERATIONS ITERATIONS _ 0 _ _ 1 (by omega)

theorem p2kRun_calls_1001 (oracle : CbcOracle) (seed salt : List Nat)
    (desired_keylen : Nat) (h : Functioning oracle) :
    (p2kRun oracle seed salt desired_keylen).calls = 1001 := by
  rw [p2kRun, h seed 0 (List.replicate 16 0) (workInit salt desired_keylen)]
  rw [cryptLoopGo_calls_count oracle seed ITERATIONS h ITERATIONS 0 _ _ 1 (by omega)]
  decide

theorem seedKey_eq (keydata : List Nat) (desired_keylen : Nat)
    (h : desired_keylen ≤ 32) :
    seedKey keydata desired_keylen
      = keydata.take (min keydata.length desired_keylen)
        ++ List.replicate (desired_keylen - min keydata.length desired_keylen) 0 := by
  have hmle : min keydata.length desired_keylen ≤ desired_keylen := by omega
  have hlen : (keydata.take (min keydata.length desired_keylen)).length
      = min keydata.length desired_keylen := by
    rw [List.length_take]; omega
  rw [seedKey, statickey, seedCopyLen, memcpyAt]
  simp only [List.take_zero, List.nil_append, List.length_replicate, Nat.sub_zero,
    Nat.zero_add, hlen, List.drop_replicate]
  rw [List.take_of_length_le
    (show (keydata.take (min keydata.length desired_keylen)).length ≤ 32 by
      rw [hlen]; omega)]
  rw [List.take_append_eq_append_take]
  rw [List.take_of_length_le
    (show (keydata.take (min keydata.length desired_keylen)).length ≤ desired_keylen by
      rw [hlen]; omega)]
  rw [hlen, List.take_replicate]
  have hrep : min (desired_keylen - min keydata.length desired_keylen)
      (32 - min keydata.length desired_keylen)
      = desired_keylen - min keydata.length desired_keylen := by omega
  rw [hrep]

/-- C5: for every salt with `len(salt) + 4 ≤ desired_keylen`, the initial
work buffer holds the raw salt bytes at offset 0, immediately followed (at
offset `len(salt)`) by the 4-byte native (little-endian) representation of
the iteration constant 1000, with all remaining bytes zero. -/
theorem workInit_salt_then_iter_then_zeros (salt : List Nat) (desired_keylen : Nat)
    (h : salt.length + 4 ≤ desired_keylen) :
    workInit salt desired_keylen
      = salt ++ natBytes4 1000
        ++ List.replicate (desired_keylen - salt.length - 4) 0 := by
  have h1 : memcpyAt (List.replicate desired_keylen 0) 0 salt
      = salt ++ List.replicate (desired_keylen - salt.length) 0 := by
    simp [memcpyAt,
      List.take_of_length_le (show salt.length ≤ desired_keylen by omega)]
  have h4 : (natBytes4 ITERATIONS).length = 4 := rfl
  rw [workInit, h1, memcpyAt, List.take_left, h4]
  have h2 : (salt ++ List.replicate (desired_keylen - salt.length) 0).length
      - salt.length = desired_keylen - salt.length := by
    simp
  rw [h2]
  rw [List.take_of_length_le
    (show (natBytes4 ITERATIONS).length ≤ desired_keylen - salt.length by
      rw [h4]; omega)]
  rw [show salt.length + 4 = salt.length + 4 from rfl, List.drop_append,
    List.drop_replicate]
  rfl

theorem workInit_salt_then_iter_then_zeros_witness :
    workInit [9, 9] 16
      = [9, 9] ++ natBytes4 1000
        ++ List.replicate (16 - ([9, 9] : List Nat).length - 4) 0 :=
  workInit_salt_then_iter_then_zeros [9, 9] 16 (by decide)

/-- C4: the two assembly `memcpy`s write exactly the indices
`0 .. saltlen+3`; they all fall inside the `desired_keylen`-byte work
buffer if and only if `saltlen + 4 ≤ desired_keylen`, and in particular a
13-byte salt with a 16-byte key overflows: the iteration-constant write
touches index 16 of a 16-byte buffer. -/
theorem workWrites_inbounds_iff_salt_fits :
    (∀ saltlen desired_keylen : Nat,
       ((∀ idx ∈ workWriteIdxs saltlen, idx < desired_keylen)
         ↔ saltlen + 4 ≤ desired_keylen))
    ∧ (13 + 4 > 16 ∧ ∃ idx ∈ workWriteIdxs 13, 16 ≤ idx) := by
  constructor
  · intro saltlen desired_keylen
    constructor
    · intro hall
      have hmem : saltlen + 3 ∈ workWriteIdxs saltlen := by
        simp only [workWriteIdxs, List.mem_append, List.mem_map, List.mem_range]
        exact Or.inr ⟨3, by omega, rfl⟩
      have := hall (saltlen + 3) hmem
      omega
    · intro hle idx hidx
      simp only [workWriteIdxs, List.mem_append, List.mem_map, List.mem_range] at hidx
      rcases hidx with h1 | ⟨j, hj, rfl⟩ <;> omega
  · exact ⟨by omega, by decide⟩

theorem workWrites_inbounds_iff_salt_fits_witness :
    15 < 16 :=
  (workWrites_inbounds_iff_salt_fits.1 12 16).mpr (by omega) 15 (by decide)

/-- C6: the seed key is always the first `min(len(password),
desired_keylen)` password bytes zero-padded on the right to
`desired_keylen` bytes; hence for `desired_keylen = 16` a 20-byte password
and its 16-byte prefix give the same seed key and (for equal salt and
cipher) the same `crypto_pass2key` outcome, and a 4-byte password gives
those 4 bytes followed by 12 zero bytes. -/
theorem seedKey_truncation_padding :
    (∀ keydata : List Nat, keydata.length = 20 →
       seedKey keydata 16 = seedKey (keydata.take 16) 16)
    ∧ (∀ (oracle : CbcOracle) (keydata salt : List Nat) (wantData wantLen : Bool),
         keydata.length = 20 →
         crypto_pass2key oracle keydata salt 16 wantData wantLen
           = crypto_pass2key oracle (keydata.take 16) salt 16 wantData wantLen)
    ∧ (∀ keydata : List Nat, keydata.length = 4 →
         seedKey keydata 16 = keydata ++ List.replicate 12 0)
    ∧ (∀ (keydata : List Nat) (desired_keylen : Nat), desired_keylen ≤ 32 →
         seedKey keydata desired_keylen
           = keydata.take (min keydata.length desired_keylen)
             ++ List.replicate
                 (desired_keylen - min keydata.length desired_keylen) 0) := by
  have ha : ∀ keydata : List Nat, keydata.length = 20 →
      seedKey keydata 16 = seedKey (keydata.take 16) 16 := by
    intro keydata hl
    have h1 : min keydata.length 16 = 16 := by omega
    have h2 : (keydata.take 16).length = 16 := by rw [List.length_take]; omega
    rw [seedKey_eq keydata 16 (by omega), seedKey_eq (keydata.take 16) 16 (by omega),
      h1, h2]
    simp [List.take_take]
  refine ⟨ha, ?_, ?_, ?_⟩
  · intro oracle keydata salt wantData wantLen hl
    have h2 : seedCopyLen keydata 16 = seedCopyLen (keydata.take 16) 16 := by
      rw [seedCopyLen, seedCopyLen, List.length_take]
      omega
    rw [crypto_pass2key, crypto_pass2key, ha keydata hl, h2]
  · intro keydata hl
    have h1 : min keydata.length 16 = 4 := by omega
    rw [seedKey_eq keydata 16 (by omega), h1,
      List.take_of_length_le (show keydata.length ≤ 4 by omega)]
  · intro keydata desired_keylen hd
    exact seedKey_eq keydata desired_keylen hd

theorem seedKey_truncation_padding_witness :
    seedKey (List.replicate 20 1) 16 = seedKey ((List.replicate 20 1).take 16) 16 :=
  seedKey_truncation_padding.1 (List.replicate 20 1) (by decide)

set_option maxRecDepth 10000 in
/-- C1 (evidence of the actual call count): with a functioning cipher the
routine performs 1001 `aes_crypt_cbc` calls — the call in the `for` loop's
init expression plus the 1000 body iterations — not the 1000 the legacy
Solaris scheme prescribes; the surfaced key is the work buffer after those
calls (here the identity cipher leaves the initial buffer in place). -/
theorem crypto_pass2key_performs_1001_calls :
    (crypto_pass2key idOracle [1, 2, 3, 4] [5, 6, 7, 8] 16 true true).ret = 0
    ∧ (crypto_pass2key idOracle [1, 2, 3, 4] [5, 6, 7, 8] 16 true true).cryptCalls
        = 1001
    ∧ (crypto_pass2key idOracle [1, 2, 3, 4] [5, 6, 7, 8] 16 true true).out_keydata
        = some (workInit [5, 6, 7, 8] 16) := by
  decide

set_option maxRecDepth 10000 in
/-- C2 (evidence of the escape at the final iteration): a cipher that fails
exactly its call with index 1000 — the last of the 1001 calls made, i.e.
the final loop-body iteration (`i = 999`) — still yields `ret = 0` and a
surfaced key with its length, because `i` reaches `iterations` before the
`if (i < iterations)` check and `ret = 0` then overwrites the error.  A
failure at an interior call (index 500) is, by contrast, reported. -/
theorem crypto_pass2key_success_despite_final_call_failure :
    ((failAt 1000) [] 1000 [] []).status = 1
    ∧ (crypto_pass2key (failAt 1000) [1, 2, 3, 4] [5, 6, 7, 8] 16 true true).cryptCalls
        = 1001
    ∧ (crypto_pass2key (failAt 1000) [1, 2, 3, 4] [5, 6, 7, 8] 16 true true).ret = 0
    ∧ (crypto_pass2key (failAt 1000) [1, 2, 3, 4] [5, 6, 7, 8] 16 true
        true).out_keydata.isSome = true
    ∧ (crypto_pass2key (failAt 1000) [1, 2, 3, 4] [5, 6, 7, 8] 16 true true).out_keylen
        = some 16
    ∧ (crypto_pass2key (failAt 500) [1, 2, 3, 4] [5, 6, 7, 8] 16 true true).ret ≠ 0
    ∧ (crypto_pass2key (failAt 500) [1, 2, 3, 4] [5, 6, 7, 8] 16 true true).out_keydata
        = none := by
  decide

/-- C3: given a functioning cipher, `crypto_pass2key` succeeds exactly for
the desired key lengths 16, 24 and 32 bytes; any other length is rejected
by the key setup and the call fails. -/
theorem crypto_pass2key_ret_zero_iff_valid_keylen (oracle : CbcOracle)
    (keydata salt : List Nat) (desired_keylen : Nat) (wantData wantLen : Bool)
    (h : Functioning oracle) :
    ((crypto_pass2key oracle keydata salt desired_keylen wantData wantLen).ret = 0
      ↔ (desired_keylen = 16 ∨ desired_keylen = 24 ∨ desired_keylen = 32)) := by
  rw [crypto_pass2key, p2kFromSeed]
  by_cases hv : desired_keylen = 16 ∨ desired_keylen = 24 ∨ desired_keylen = 32
  · have hs : aes_setkey_enc_status (desired_keylen * 8) = 0 :=
      (aes_setkey_enc_status_eq_zero_iff _).mpr (by omega)
    rw [if_neg (by simp [hs])]
    rw [if_neg (by
      have := p2kRun_i_ge oracle (seedKey keydata desired_keylen) salt desired_keylen h
      omega)]
    simpa using hv
  · have hs : aes_setkey_enc_status (desired_keylen * 8) ≠ 0 := by
      intro h0
      have := (aes_setkey_enc_status_eq_zero_iff _).mp h0
      exact hv (by omega)
    rw [if_pos hs]
    constructor
    · intro h0
      have hm : (-1 : Int) = 0 := h0
      exact absurd hm (by decide)
    · intro hd
      exact absurd hd hv

theorem crypto_pass2key_ret_zero_iff_valid_keylen_witness :
    ((crypto_pass2key idOracle [1, 2] [3, 4] 16 true true).ret = 0
      ↔ ((16 : Nat) = 16 ∨ (16 : Nat) = 24 ∨ (16 : Nat) = 32)) :=
  crypto_pass2key_ret_zero_iff_valid_keylen idOracle [1, 2] [3, 4] 16 true true
    idOracle_functioning

/-- C7: whenever `crypto_pass2key` returns a nonzero (failure) status, the
caller-visible output locations `*out_keydata` and `*out_keylen` are left
untouched: both failure exits jump to `out:` before the stores. -/
theorem crypto_pass2key_failure_leaves_outputs_untouched (oracle : CbcOracle)
    (keydata salt : List Nat) (desired_keylen : Nat) (wantData wantLen : Bool)
    (h : (crypto_pass2key oracle keydata salt desired_keylen wantData wantLen).ret ≠ 0) :
    (crypto_pass2key oracle keydata salt desired_keylen wantData wantLen).out_keydata
        = none
    ∧ (crypto_pass2key oracle keydata salt desired_keylen wantData wantLen).out_keylen
        = none := by
  rw [crypto_pass2key, p2kFromSeed] at h ⊢
  by_cases h1 : aes_setkey_enc_status (desired_keylen * 8) ≠ 0
  · rw [if_pos h1]
    exact ⟨rfl, rfl⟩
  · rw [if_neg h1] at h ⊢
    by_cases h2 : (p2kRun oracle (seedKey keydata desired_keylen) salt
        desired_keylen).i < ITERATIONS
    · rw [if_pos h2]
      exact ⟨rfl, rfl⟩
    · rw [if_neg h2] at h
      exact absurd rfl h

theorem crypto_pass2key_failure_leaves_outputs_untouched_witness :
    (crypto_pass2key idOracle [1] [2] 15 true true).out_keydata = none
    ∧ (crypto_pass2key idOracle [1] [2] 15 true true).out_keylen = none :=
  crypto_pass2key_failure_leaves_outputs_untouched idOracle [1] [2] 15 true true
    (by decide)

/-- C8: whenever `crypto_pass2key` returns success and the caller supplied
an `out_keylen` location, the stored length is exactly the requested
`desired_keylen`. -/
theorem crypto_pass2key_success_keylen_eq_desired (oracle : CbcOracle)
    (keydata salt : List Nat) (desired_keylen : Nat) (wantData : Bool)
    (h : (crypto_pass2key oracle keydata salt desired_keylen wantData true).ret = 0) :
    (crypto_pass2key oracle keydata salt desired_keylen wantData true).out_keylen
      = some desired_keylen := by
  rw [crypto_pass2key, p2kFromSeed] at h ⊢
  by_cases h1 : aes_setkey_enc_status (desired_keylen * 8) ≠ 0
  · rw [if_pos h1] at h
    have hm : (-1 : Int) = 0 := h
    exact absurd hm (by decide)
  · rw [if_neg h1] at h ⊢
    by_cases h2 : (p2kRun oracle (seedKey keydata desired_keylen) salt
        desired_keylen).i < ITERATIONS
    · rw [if_pos h2] at h
      exact absurd h (p2kRun_fail oracle (seedKey keydata desired_keylen) salt
        desired_keylen h2)
    · rw [if_neg h2]
      rfl

set_option maxRecDepth 10000 in
theorem crypto_pass2key_success_keylen_eq_desired_witness :
    (crypto_pass2key idOracle [1] [2] 16 true true).out_keylen = some 16 :=
  crypto_pass2key_success_keylen_eq_desired idOracle [1] [2] 16 true (by decide)

/-- C9: the password `memcpy` into the fixed 32-byte `statickey` buffer is
performed before (and regardless of) the cipher's key-size validation:
`seedBytesWritten` equals `min (len password) desired_keylen` on every
path, that count stays within the 32-byte buffer for every password iff
`desired_keylen ≤ 32`, and a 33-byte password with `desired_keylen = 33`
has 33 bytes copied even though the key size is then rejected. -/
theorem seed_copy_before_validation_bounds :
    (∀ (oracle : CbcOracle) (keydata salt : List Nat) (desired_keylen : Nat)
       (wantData wantLen : Bool),
       (crypto_pass2key oracle keydata salt desired_keylen wantData
         wantLen).seedBytesWritten = min keydata.length desired_keylen)
    ∧ (∀ desired_keylen : Nat,
         ((∀ pwdlen : Nat, min pwdlen desired_keylen ≤ 32) ↔ desired_keylen ≤ 32))
    ∧ ((crypto_pass2key idOracle (List.replicate 33 7) [] 33 true true).ret ≠ 0
        ∧ (crypto_pass2key idOracle (List.replicate 33 7) [] 33 true
            true).seedBytesWritten = 33
        ∧ 32 < 33) := by
  refine ⟨?_, ?_, by decide, by decide, by decide⟩
  · intro oracle keydata salt desired_keylen wantData wantLen
    rw [crypto_pass2key, p2kFromSeed, seedCopyLen]
    by_cases h1 : aes_setkey_enc_status (desired_keylen * 8) ≠ 0
    · rw [if_pos h1]
    · rw [if_neg h1]
      by_cases h2 : (p2kRun oracle (seedKey keydata desired_keylen) salt
          desired_keylen).i < ITERATIONS
      · rw [if_pos h2]
      · rw [if_neg h2]
  · intro desired_keylen
    constructor
    · intro hall
      have := hall desired_keylen
      omega
    · intro hle pwdlen
      omega

theorem seed_copy_before_validation_bounds_witness :
    min 100 16 ≤ 32 :=
  (seed_copy_before_validation_bounds.2.1 16).mpr (by omega) 100

/-- C10: if derivation succeeds internally, then with a null `out_keydata`
pointer the call still returns 0, frees the work buffer internally instead
of transferring it, surfaces no key, and still stores `desired_keylen`
into `*out_keylen` when that pointer is non-null. -/
theorem crypto_pass2key_null_out_keydata_success (oracle : CbcOracle)
    (keydata salt : List Nat) (desired_keylen : Nat) (wantLen : Bool)
    (h : (crypto_pass2key oracle keydata salt desired_keylen true wantLen).ret = 0) :
    (crypto_pass2key oracle keydata salt desired_keylen false wantLen).ret = 0
    ∧ (crypto_pass2key oracle keydata salt desired_keylen false wantLen).out_keydata
        = none
    ∧ (crypto_pass2key oracle keydata salt desired_keylen false wantLen).bufferFreed
        = true
    ∧ (crypto_pass2key oracle keydata salt desired_keylen false wantLen).out_keylen
        = (if wantLen then some desired_keylen else none) := by
  rw [crypto_pass2key, p2kFromSeed] at h ⊢
  by_cases h1 : aes_setkey_enc_status (desired_keylen * 8) ≠ 0
  · rw [if_pos h1] at h
    have hm : (-1 : Int) = 0 := h
    exact absurd hm (by decide)
  · rw [if_neg h1] at h ⊢
    by_cases h2 : (p2kRun oracle (seedKey keydata desired_keylen) salt
        desired_keylen).i < ITERATIONS
    · rw [if_pos h2] at h
      exact absurd h (p2kRun_fail oracle (seedKey keydata desired_keylen) salt
        desired_keylen h2)
    · rw [if_neg h2]
      exact ⟨rfl, rfl, rfl, rfl⟩

set_option maxRecDepth 10000 in
theorem crypto_pass2key_null_out_keydata_success_witness :
    (crypto_pass2key idOracle [3] [4] 16 false true).ret = 0
    ∧ (crypto_pass2key idOracle [3] [4] 16 false true).out_keydata = none
    ∧ (crypto_pass2key idOracle [3] [4] 16 false true).bufferFreed = true
    ∧ (crypto_pass2key idOracle [3] [4] 16 false true).out_keylen
        = (if true then some 16 else none) :=
  crypto_pass2key_null_out_keydata_success idOracle [3] [4] 16 true (by decide)
